import Mathlib

/-!
# Invite-tracker core: shallow embedding and verification

This development embeds the join-attribution engine and validation state
machine of the invite-tracker bot (source: `index.js` — the revision with the
`_findUsedInviteAndStale` / `_checkSingleInvite` / `_prepareValidationUpdate`
helpers — together with the `UserInvite` and `TrackedJoin` Mongoose models).

Modelling conventions:
* Discord snowflake IDs and invite codes are `String`s; invite use counts are
  `Nat`; timestamps are `Int` milliseconds.
* The per-guild invite-uses cache (`Map<InviteCode, UsesCount>`) and the
  freshly fetched live-invite collection are association lists
  `List (String × Nat)` with first-match lookup; `null` values from the
  JavaScript side become `Option`.
* Mongo collections are `List`s of records; `findOneAndUpdate` / `updateOne`
  update the first matching document, `updateMany` / `deleteMany` all of them.
* The JavaScript in-place mutation of the cache map (`cachedUses.delete`) is
  made explicit: functions that mutate the cache also return the new cache.
-/

namespace InviteTracker

/-- A per-guild mapping from invite code to last observed use count
(the values stored in `inviteUsesCache`, and likewise the shape of a freshly
fetched invite list `code → uses`). -/
abbrev UsesMap := List (String × Nat)

/-- `Map.get` on an association list: first entry with the given key. -/
def mapGet (m : UsesMap) (k : String) : Option Nat :=
  (m.find? (fun p => p.1 == k)).map (fun p => p.2)

/-- `Map.delete`: remove every entry with the given key. -/
def mapDelete (m : UsesMap) (k : String) : UsesMap :=
  m.filter (fun p => p.1 != k)

/-- A `UserInvite` document (Mongoose model `UserInvite`): the bot-issued
invite code owned by `userId` in guild `guildId`.  `docId` is the Mongo
`_id` (stringified, as `_findUsedInviteAndStale` stores
`userInvite._id.toString()`). -/
structure UserInvite where
  docId : String
  userId : String
  guildId : String
  inviteCode : String
deriving DecidableEq, Repr

/-- Result record of `_checkSingleInvite`. -/
structure CheckResult where
  isStale : Bool
  usageIncreased : Bool
  delta : Nat
  inviterId : String
  inviteCode : String
deriving DecidableEq, Repr

/-- `_checkSingleInvite(userInvite, currentInvites, cachedUses)` from
`index.js`.  Checks one tracked invite against the live invite list and the
cache.  The JavaScript mutates `cachedUses` in place when the invite is
stale; here the (possibly updated) cache is returned as the second
component. -/
def _checkSingleInvite (userInvite : UserInvite) (currentInvites : Option UsesMap)
    (cachedUses : Option UsesMap) : CheckResult × Option UsesMap :=
  let currentInvite := currentInvites.bind (fun ci => mapGet ci userInvite.inviteCode)
  let cachedUseCount := cachedUses.bind (fun m => mapGet m userInvite.inviteCode)
  match currentInvite with
  | none =>
      -- Invite deleted on Discord or inaccessible: stale; clean from live cache map.
      ({ isStale := true, usageIncreased := false, delta := 0,
         inviterId := userInvite.userId, inviteCode := userInvite.inviteCode },
       cachedUses.map (fun m => mapDelete m userInvite.inviteCode))
  | some currentUses =>
      match cachedUses, cachedUseCount with
      | some _, some c =>
          if currentUses > c then
            ({ isStale := false, usageIncreased := true, delta := currentUses - c,
               inviterId := userInvite.userId, inviteCode := userInvite.inviteCode },
             cachedUses)
          else
            ({ isStale := false, usageIncreased := false, delta := 0,
               inviterId := userInvite.userId, inviteCode := userInvite.inviteCode },
             cachedUses)
      | _, _ =>
          -- Fallback case: cache or the specific code missing; attribute if uses > 0.
          if currentUses > 0 then
            ({ isStale := false, usageIncreased := true, delta := currentUses,
               inviterId := userInvite.userId, inviteCode := userInvite.inviteCode },
             cachedUses)
          else
            ({ isStale := false, usageIncreased := false, delta := 0,
               inviterId := userInvite.userId, inviteCode := userInvite.inviteCode },
             cachedUses)

/-- One entry of `potentialAttributions` in `_findUsedInviteAndStale`
(`{ inviterId, inviteCode, delta }`). -/
structure Candidate where
  inviterId : String
  inviteCode : String
  delta : Nat
deriving DecidableEq, Repr

/-- The `for (const userInvite of trackedUserInvites)` loop body of
`_findUsedInviteAndStale`, threading the mutable `cachedUses` map.
Returns (staleInviteIds, potentialAttributions, final cache), the first two
in iteration order. -/
def findLoop (ci : UsesMap) : List UserInvite → UsesMap →
    List String × List Candidate × UsesMap
  | [], m => ([], [], m)
  | uv :: rest, m =>
      let step := _checkSingleInvite uv (some ci) (some m)
      let m2 := (step.2).getD m
      let acc := findLoop ci rest m2
      if step.1.isStale then
        (uv.docId :: acc.1, acc.2.1, acc.2.2)
      else if step.1.usageIncreased then
        (acc.1,
         { inviterId := step.1.inviterId, inviteCode := step.1.inviteCode,
           delta := step.1.delta } :: acc.2.1,
         acc.2.2)
      else
        (acc.1, acc.2.1, acc.2.2)

/-- The attribution branch of `_findUsedInviteAndStale`: one increase → that
candidate; several → the first found (ambiguous, diagnostic emitted); none →
`null`. -/
def attributionOf (potentialAttributions : List Candidate) : Option Candidate :=
  if potentialAttributions.length = 1 then potentialAttributions.head?
  else if potentialAttributions.length > 1 then potentialAttributions.head?
  else none

/-- Return value of `_findUsedInviteAndStale`.  The JavaScript returns
`{ attribution, staleInviteIds }`; in addition `ambiguousCandidates` records
the content of the ambiguity diagnostic (the `logWarn` that enumerates every
candidate with its delta when more than one tracked invite increased), and
`cachedUsesAfter` is the cache after its in-place mutations. -/
structure FindResult where
  attribution : Option Candidate
  staleInviteIds : List String
  ambiguousCandidates : List Candidate
  cachedUsesAfter : Option UsesMap
deriving DecidableEq, Repr

/-- `_findUsedInviteAndStale(currentInvites, cachedUses, trackedUserInvites)`
from `index.js`.  Null guards first: with a null live list or a null cache no
comparison happens and the result is empty. -/
def _findUsedInviteAndStale (currentInvites : Option UsesMap)
    (cachedUses : Option UsesMap) (trackedUserInvites : List UserInvite) :
    FindResult :=
  match currentInvites, cachedUses with
  | none, cu =>
      { attribution := none, staleInviteIds := [], ambiguousCandidates := [],
        cachedUsesAfter := cu }
  | some _, none =>
      { attribution := none, staleInviteIds := [], ambiguousCandidates := [],
        cachedUsesAfter := none }
  | some ci, some m =>
      let acc := findLoop ci trackedUserInvites m
      { attribution := attributionOf acc.2.1,
        staleInviteIds := acc.1,
        ambiguousCandidates := if acc.2.1.length > 1 then acc.2.1 else [],
        cachedUsesAfter := some acc.2.2 }

/-- `_cleanupStaleInvites(staleInviteIds, guildId)`: the
`UserInvite.deleteMany({ _id: { $in: staleInviteIds }, guildId })` call,
acting on the `UserInvite` collection. -/
def _cleanupStaleInvites (staleInviteIds : List String) (guildId : String)
    (db : List UserInvite) : List UserInvite :=
  db.filter (fun r => !(staleInviteIds.contains r.docId && r.guildId == guildId))

/-- The `status` enum of the `TrackedJoin` Mongoose schema. -/
inductive JoinStatus
  | pending
  | validated
  | left_early
deriving DecidableEq, Repr

/-- A `TrackedJoin` document.  `docId` is the Mongo `_id` (kept abstract as a
`Nat`; per collection it is unique). -/
structure TrackedJoin where
  docId : Nat
  guildId : String
  inviteeId : String
  inviterId : String
  inviteCodeUsed : String
  joinTimestamp : Int
  status : JoinStatus
  validationTimestamp : Option Int
  leaveTimestamp : Option Int
deriving DecidableEq, Repr

/-- `findOneAndUpdate` / `updateOne` semantics: apply `f` to the first
document satisfying `p`, leave everything else unchanged. -/
def updateFirst (p : TrackedJoin → Bool) (f : TrackedJoin → TrackedJoin) :
    List TrackedJoin → List TrackedJoin
  | [] => []
  | r :: rest => if p r then f r :: rest else r :: updateFirst p f rest

/-- The filter of `_createOrUpdatePendingJoin`'s `findOneAndUpdate`:
`{ guildId, inviteeId }`. -/
def joinKey (guildId inviteeId : String) (r : TrackedJoin) : Bool :=
  r.guildId == guildId && r.inviteeId == inviteeId

/-- The `$set` payload of `_createOrUpdatePendingJoin`'s `findOneAndUpdate`
as it reaches the store: new inviter and code, fresh `joinTimestamp`,
`status: 'pending'`.  The source also writes `validationTimestamp:
undefined, leaveTimestamp: undefined` into the `$set` (under the comment
"Clear validation/leave timestamps if rejoining/re-attributed"), but
Mongoose 6+ — the version this discord.js-v14 project runs on — strips
`undefined` keys from updates, so on an existing document those two fields
are left as they were (clearing would require `$unset`). -/
def pendingSet (inviterId inviteCode : String) (joinTime : Int)
    (r : TrackedJoin) : TrackedJoin :=
  { r with inviterId, inviteCodeUsed := inviteCode, joinTimestamp := joinTime,
           status := .pending }

/-- `_createOrUpdatePendingJoin(guildId, inviteeId, inviterId, inviteCode)`
from `index.js`: `TrackedJoin.findOneAndUpdate` keyed on `{guildId,
inviteeId}` with `upsert: true`.  An existing document for the pair gets the
`$set` of `pendingSet` (prior validation/leave timestamps retained, see
there); otherwise a new document is inserted with no validation/leave
timestamps (`$setOnInsert` supplies the key fields, and `newId` stands for
the `_id` Mongo generates).  `joinTime` is the `new Date()` taken at call
time. -/
def _createOrUpdatePendingJoin (guildId inviteeId inviterId inviteCode : String)
    (joinTime : Int) (newId : Nat) (db : List TrackedJoin) : List TrackedJoin :=
  if db.any (joinKey guildId inviteeId) then
    updateFirst (joinKey guildId inviteeId)
      (pendingSet inviterId inviteCode joinTime) db
  else
    db ++ [{ docId := newId, guildId, inviteeId, inviterId,
             inviteCodeUsed := inviteCode, joinTimestamp := joinTime,
             status := .pending, validationTimestamp := none,
             leaveTimestamp := none }]

/-- `_markJoinsAsLeftEarly(guildId, userId)` from `index.js`:
`TrackedJoin.updateMany({guildId, inviteeId, status: 'pending'},
{$set: {status: 'left_early', leaveTimestamp}})`. -/
def _markJoinsAsLeftEarly (guildId userId : String) (leaveTime : Int)
    (db : List TrackedJoin) : List TrackedJoin :=
  db.map (fun r =>
    if r.guildId == guildId && r.inviteeId == userId && r.status == JoinStatus.pending then
      { r with status := .left_early, leaveTimestamp := some leaveTime }
    else r)

/-- Outcome of `guild.members.fetch({user})` as the validation task sees it:
success, a `DiscordAPIError` with code `UNKNOWN_MEMBER`/`UNKNOWN_USER`, or
any other error (rate limit, network, permission). -/
inductive FetchOutcome
  | ok
  | unknownMemberOrUser
  | otherError
deriving DecidableEq, Repr

/-- The `status` component of `_checkMemberPresence`'s result
(`'present' | 'left' | 'error_skip'`). -/
inductive PresenceStatus
  | present
  | left
  | error_skip
deriving DecidableEq, Repr

/-- `_checkMemberPresence(join, cache)` from `index.js`, with the platform
modelled by the set of guilds in `client.guilds.cache` (`knownGuilds`) and a
member-fetch oracle for this tick (`fetchMember`).  Guild not in the cache →
`error_skip`; fetch ok → `present`; unknown member/user → `left`; any other
fetch error → `error_skip`.  (The per-run result cache of the source only
memoises `fetchMember`, which is a fixed function of (guild, user) within a
tick, so it is semantically transparent here.) -/
def _checkMemberPresence (knownGuilds : List String)
    (fetchMember : String → String → FetchOutcome) (join : TrackedJoin) :
    PresenceStatus :=
  if knownGuilds.contains join.guildId then
    match fetchMember join.guildId join.inviteeId with
    | .ok => .present
    | .unknownMemberOrUser => .left
    | .otherError => .error_skip
  else .error_skip

/-- The terminal status a validation `updateOne` writes. -/
inductive ValidationOutcome
  | toValidated
  | toLeftEarly
deriving DecidableEq, Repr

/-- One entry of `bulkOps`: `updateOne` with filter
`{_id: targetId, status: 'pending'}` and a `$set` to the terminal status
(with `validationTimestamp` resp. `leaveTimestamp` set to `eventTime`). -/
structure UpdateOp where
  targetId : Nat
  outcome : ValidationOutcome
  eventTime : Int
deriving DecidableEq, Repr

/-- `_prepareValidationUpdate(join, memberStatus, eventTime)` from
`index.js`: `'present'` → set `validated` + `validationTimestamp`;
`'left'` → set `left_early` + `leaveTimestamp`; any other status → `null`
(the task also `continue`s on `error_skip` before calling this, which is the
same behaviour). -/
def _prepareValidationUpdate (join : TrackedJoin) (memberStatus : PresenceStatus)
    (eventTime : Int) : Option UpdateOp :=
  match memberStatus with
  | .present => some { targetId := join.docId, outcome := .toValidated, eventTime }
  | .left => some { targetId := join.docId, outcome := .toLeftEarly, eventTime }
  | .error_skip => none

/-- The `$set` payload of a prepared validation update applied to a document. -/
def applyOutcome (op : UpdateOp) (r : TrackedJoin) : TrackedJoin :=
  match op.outcome with
  | .toValidated => { r with status := .validated, validationTimestamp := some op.eventTime }
  | .toLeftEarly => { r with status := .left_early, leaveTimestamp := some op.eventTime }

/-- The `updateOne` filter `{_id: op.targetId, status: 'pending'}`. -/
def opFilter (op : UpdateOp) (r : TrackedJoin) : Bool :=
  r.docId == op.targetId && r.status == JoinStatus.pending

/-- One `updateOne` of the bulk write. -/
def applyUpdateOp (op : UpdateOp) (db : List TrackedJoin) : List TrackedJoin :=
  updateFirst (opFilter op) (applyOutcome op) db

/-- `TrackedJoin.bulkWrite(bulkOps)`: apply every prepared `updateOne`. -/
def applyBulkWrite (ops : List UpdateOp) (db : List TrackedJoin) : List TrackedJoin :=
  ops.foldl (fun d op => applyUpdateOp op d) db

/-- The candidate query of `validatePendingJoins`:
`TrackedJoin.find({status: 'pending', joinTimestamp: {$lte: cutoff}})` where
`cutoff = Date.now() - VALIDATION_PERIOD_MS`. -/
def validationCandidates (db : List TrackedJoin) (cutoff : Int) : List TrackedJoin :=
  db.filter (fun r => r.status == JoinStatus.pending && decide (r.joinTimestamp ≤ cutoff))

/-- The `bulkOps` list built by `validatePendingJoins`'s candidate loop:
presence check per candidate, `continue` on `error_skip`, otherwise the
prepared conditional update. -/
def validatePendingJoinsOps (knownGuilds : List String)
    (fetchMember : String → String → FetchOutcome) (cutoff eventTime : Int)
    (db : List TrackedJoin) : List UpdateOp :=
  (validationCandidates db cutoff).filterMap (fun join =>
    _prepareValidationUpdate join
      (_checkMemberPresence knownGuilds fetchMember join) eventTime)

/-- `validatePendingJoins()` from `index.js`, one tick: query the pending
candidates older than the cutoff, check presence, and bulk-write the
prepared conditional updates.  `eventTime` is the tick's `validationTime =
new Date()`. -/
def validatePendingJoins (knownGuilds : List String)
    (fetchMember : String → String → FetchOutcome) (cutoff eventTime : Int)
    (db : List TrackedJoin) : List TrackedJoin :=
  applyBulkWrite (validatePendingJoinsOps knownGuilds fetchMember cutoff eventTime db) db

/-- Per-record classification of `_checkSingleInvite` for a live code,
against the cache the pass started with: the candidate (with its delta) the
record contributes to `potentialAttributions`, if any.  Stated against the
initial cache `m`; the loop's in-place cache deletions only ever remove
codes that are not live, so they never change this classification (proved
in `findLoop_characterisation`). -/
def increasedCandidate (ci m : UsesMap) (uv : UserInvite) : Option Candidate :=
  match mapGet ci uv.inviteCode with
  | none => none
  | some u =>
      match mapGet m uv.inviteCode with
      | some c =>
          if u > c then some { inviterId := uv.userId, inviteCode := uv.inviteCode, delta := u - c }
          else none
      | none =>
          if u > 0 then some { inviterId := uv.userId, inviteCode := uv.inviteCode, delta := u }
          else none

/-- What one validation tick does to a single document, as a function:
untouched unless it is a pending candidate; then transitioned according to
its presence check, or left alone on `error_skip`.  `validatePendingJoins`
is proved equal to mapping this over the collection
(`validatePendingJoins_eq_map`), given distinct `_id`s. -/
def validationImage (knownGuilds : List String)
    (fetchMember : String → String → FetchOutcome) (cutoff eventTime : Int)
    (r : TrackedJoin) : TrackedJoin :=
  if r.status == JoinStatus.pending && decide (r.joinTimestamp ≤ cutoff) then
    match _prepareValidationUpdate r
        (_checkMemberPresence knownGuilds fetchMember r) eventTime with
    | some op => applyOutcome op r
    | none => r
  else r

/-- Relation between a document before and after a store operation:
a non-`pending` document is unchanged, and `inviterId` / `inviteCodeUsed`
are never altered. -/
def joinEvolution (r r2 : TrackedJoin) : Prop :=
  (r.status ≠ JoinStatus.pending → r2 = r)
  ∧ r2.inviterId = r.inviterId ∧ r2.inviteCodeUsed = r.inviteCodeUsed

/-! ## Lemmas about the cache map -/

theorem mapGet_cons (p : String × Nat) (rest : UsesMap) (k : String) :
    mapGet (p :: rest) k = if p.1 = k then some p.2 else mapGet rest k := by
  by_cases h : p.1 = k
  · rw [if_pos h]
    unfold mapGet
    rw [List.find?_cons_of_pos _ (by simp [h])]
    rfl
  · rw [if_neg h]
    unfold mapGet
    rw [List.find?_cons_of_neg _ (by simp [h])]

theorem mapDelete_cons (p : String × Nat) (rest : UsesMap) (k : String) :
    mapDelete (p :: rest) k =
      if p.1 = k then mapDelete rest k else p :: mapDelete rest k := by
  by_cases h : p.1 = k
  · rw [if_pos h]
    unfold mapDelete
    rw [List.filter_cons_of_neg (by simp [h])]
  · rw [if_neg h]
    unfold mapDelete
    rw [List.filter_cons_of_pos (by simp [h])]

theorem mapGet_mapDelete_self (m : UsesMap) (k : String) :
    mapGet (mapDelete m k) k = none := by
  unfold mapGet mapDelete
  rw [Option.map_eq_none', List.find?_eq_none]
  intro p hp
  have h2 := (List.mem_filter.mp hp).2
  simp only [bne_iff_ne, ne_eq] at h2
  simp [h2]

theorem mapGet_mapDelete_ne (m : UsesMap) (k k2 : String) (h : k2 ≠ k) :
    mapGet (mapDelete m k) k2 = mapGet m k2 := by
  induction m with
  | nil => rfl
  | cons p rest ih =>
      rw [mapDelete_cons, mapGet_cons]
      by_cases h1 : p.1 = k
      · have h2 : ¬ p.1 = k2 := by rw [h1]; exact fun hh => h hh.symm
        rw [if_pos h1, if_neg h2]
        exact ih
      · rw [if_neg h1, mapGet_cons]
        by_cases h2 : p.1 = k2
        · rw [if_pos h2, if_pos h2]
        · rw [if_neg h2, if_neg h2]
          exact ih

theorem mapGet_mapDelete_none (m : UsesMap) (k k2 : String)
    (h : mapGet m k2 = none) : mapGet (mapDelete m k) k2 = none := by
  by_cases hk : k2 = k
  · rw [hk]; exact mapGet_mapDelete_self m k
  · rw [mapGet_mapDelete_ne m k k2 hk]; exact h

/-! ## Lemmas about `_checkSingleInvite` -/

theorem checkSingleInvite_stale (uv : UserInvite) (ci m : UsesMap)
    (h : mapGet ci uv.inviteCode = none) :
    _checkSingleInvite uv (some ci) (some m) =
      ({ isStale := true, usageIncreased := false, delta := 0,
         inviterId := uv.userId, inviteCode := uv.inviteCode },
       some (mapDelete m uv.inviteCode)) := by
  simp [_checkSingleInvite, h]

theorem checkSingleInvite_cached (uv : UserInvite) (ci m : UsesMap) (u c : Nat)
    (h1 : mapGet ci uv.inviteCode = some u) (h2 : mapGet m uv.inviteCode = some c) :
    _checkSingleInvite uv (some ci) (some m) =
      (if u > c then
        { isStale := false, usageIncreased := true, delta := u - c,
          inviterId := uv.userId, inviteCode := uv.inviteCode }
       else
        { isStale := false, usageIncreased := false, delta := 0,
          inviterId := uv.userId, inviteCode := uv.inviteCode },
       some m) := by
  simp only [_checkSingleInvite, h1, h2, Option.some_bind]
  split <;> rfl

theorem checkSingleInvite_fallback (uv : UserInvite) (ci m : UsesMap) (u : Nat)
    (h1 : mapGet ci uv.inviteCode = some u) (h2 : mapGet m uv.inviteCode = none) :
    _checkSingleInvite uv (some ci) (some m) =
      (if u > 0 then
        { isStale := false, usageIncreased := true, delta := u,
          inviterId := uv.userId, inviteCode := uv.inviteCode }
       else
        { isStale := false, usageIncreased := false, delta := 0,
          inviterId := uv.userId, inviteCode := uv.inviteCode },
       some m) := by
  simp only [_checkSingleInvite, h1, h2, Option.some_bind]
  split <;> rfl

theorem checkSingleInvite_cache_none (uv : UserInvite) (ci m : UsesMap)
    (code : String) (h : mapGet m code = none) :
    mapGet (((_checkSingleInvite uv (some ci) (some m)).2).getD m) code = none := by
  cases hlive : mapGet ci uv.inviteCode with
  | none =>
      rw [checkSingleInvite_stale uv ci m hlive]
      exact mapGet_mapDelete_none m uv.inviteCode code h
  | some u =>
      cases hc : mapGet m uv.inviteCode with
      | none => rw [checkSingleInvite_fallback uv ci m u hlive hc]; exact h
      | some c => rw [checkSingleInvite_cached uv ci m u c hlive hc]; exact h

/-! ## Lemmas about the `_findUsedInviteAndStale` loop -/

theorem findLoop_cons_cache (ci : UsesMap) (uv : UserInvite)
    (rest : List UserInvite) (m : UsesMap) :
    (findLoop ci (uv :: rest) m).2.2
      = (findLoop ci rest
          (((_checkSingleInvite uv (some ci) (some m)).2).getD m)).2.2 := by
  simp only [findLoop]
  split
  · rfl
  · split <;> rfl

/-- The loop classifies each tracked record against the cache the pass
started with: its in-place deletions only remove codes that are not live,
so they never affect a later record's classification.  Component 1 is the
stale IDs (records whose code is not live), component 2.1 the candidate
list, both in iteration order. -/
theorem findLoop_characterisation (ci m0 : UsesMap) :
    ∀ (tracked : List UserInvite) (m : UsesMap),
      (∀ code, (mapGet ci code).isSome → mapGet m code = mapGet m0 code) →
      (findLoop ci tracked m).1
          = (tracked.filter (fun uv => (mapGet ci uv.inviteCode).isNone)).map
              (fun uv => uv.docId)
      ∧ (findLoop ci tracked m).2.1 = tracked.filterMap (increasedCandidate ci m0) := by
  intro tracked
  induction tracked with
  | nil => intro m hI; exact ⟨rfl, rfl⟩
  | cons uv rest ih =>
      intro m hI
      cases hlive : mapGet ci uv.inviteCode with
      | none =>
          have hI2 : ∀ code, (mapGet ci code).isSome →
              mapGet (mapDelete m uv.inviteCode) code = mapGet m0 code := by
            intro code hc
            have hne : code ≠ uv.inviteCode := fun he => by
              rw [he, hlive] at hc; simp at hc
            rw [mapGet_mapDelete_ne m uv.inviteCode code hne]
            exact hI code hc
          have hrec := ih (mapDelete m uv.inviteCode) hI2
          have hstep := checkSingleInvite_stale uv ci m hlive
          constructor
          · simp only [findLoop, hstep, Option.getD_some, if_true, Bool.false_eq_true, if_false]
            rw [List.filter_cons_of_pos (by simp [hlive])]
            simp only [List.map_cons]
            rw [hrec.1]
          · simp only [findLoop, hstep, Option.getD_some, if_true, Bool.false_eq_true, if_false]
            rw [List.filterMap_cons_none (by simp [increasedCandidate, hlive])]
            exact hrec.2
      | some u =>
          have hm : mapGet m uv.inviteCode = mapGet m0 uv.inviteCode :=
            hI uv.inviteCode (by rw [hlive]; rfl)
          have hrec := ih m hI
          cases hcache : mapGet m0 uv.inviteCode with
          | some c =>
              have hstep := checkSingleInvite_cached uv ci m u c hlive (by rw [hm, hcache])
              by_cases huc : u > c
              · rw [if_pos huc] at hstep
                refine ⟨?_, ?_⟩ <;> simp only [findLoop, hstep, Option.getD_some, if_true, Bool.false_eq_true, if_false]
                · rw [List.filter_cons_of_neg (by simp [hlive])]
                  exact hrec.1
                · rw [List.filterMap_cons_some
                    (show increasedCandidate ci m0 uv
                        = some { inviterId := uv.userId, inviteCode := uv.inviteCode,
                                 delta := u - c } by
                      simp [increasedCandidate, hlive, hcache, huc])]
                  rw [hrec.2]
              · rw [if_neg huc] at hstep
                refine ⟨?_, ?_⟩ <;> simp only [findLoop, hstep, Option.getD_some, if_true, Bool.false_eq_true, if_false]
                · rw [List.filter_cons_of_neg (by simp [hlive])]
                  exact hrec.1
                · rw [List.filterMap_cons_none
                    (by simp [increasedCandidate, hlive, hcache, huc])]
                  exact hrec.2
          | none =>
              have hstep := checkSingleInvite_fallback uv ci m u hlive (by rw [hm, hcache])
              by_cases huc : u > 0
              · rw [if_pos huc] at hstep
                refine ⟨?_, ?_⟩ <;> simp only [findLoop, hstep, Option.getD_some, if_true, Bool.false_eq_true, if_false]
                · rw [List.filter_cons_of_neg (by simp [hlive])]
                  exact hrec.1
                · rw [List.filterMap_cons_some
                    (show increasedCandidate ci m0 uv
                        = some { inviterId := uv.userId, inviteCode := uv.inviteCode,
                                 delta := u } by
                      simp [increasedCandidate, hlive, hcache, huc])]
                  rw [hrec.2]
              · rw [if_neg huc] at hstep
                refine ⟨?_, ?_⟩ <;> simp only [findLoop, hstep, Option.getD_some, if_true, Bool.false_eq_true, if_false]
                · rw [List.filter_cons_of_neg (by simp [hlive])]
                  exact hrec.1
                · rw [List.filterMap_cons_none
                    (by simp [increasedCandidate, hlive, hcache, huc])]
                  exact hrec.2

theorem findLoop_cache_none (ci : UsesMap) (code : String) :
    ∀ (tracked : List UserInvite) (m : UsesMap),
      ((∃ uv ∈ tracked, uv.inviteCode = code) ∧ mapGet ci code = none)
        ∨ mapGet m code = none →
      mapGet (findLoop ci tracked m).2.2 code = none := by
  intro tracked
  induction tracked with
  | nil =>
      intro m hyp
      rcases hyp with ⟨⟨uv, hmem, _⟩, _⟩ | hm
      · simp at hmem
      · exact hm
  | cons uv rest ih =>
      intro m hyp
      rw [findLoop_cons_cache]
      rcases hyp with ⟨⟨uv2, hmem, hcode⟩, hlive⟩ | hm
      · rcases List.mem_cons.mp hmem with he | hm2
        · have hcc : uv.inviteCode = code := by rw [← he]; exact hcode
          have hl : mapGet ci uv.inviteCode = none := by rw [hcc]; exact hlive
          apply ih
          right
          rw [checkSingleInvite_stale uv ci m hl]
          show mapGet (mapDelete m uv.inviteCode) code = none
          rw [← hcc]
          exact mapGet_mapDelete_self m uv.inviteCode
        · exact ih _ (Or.inl ⟨⟨uv2, hm2, hcode⟩, hlive⟩)
      · exact ih _ (Or.inr (checkSingleInvite_cache_none uv ci m code hm))

/-! ## Claim theorems: attribution engine -/

/-- C1: in any attribution pass in which more than one tracked invite record
shows a use-count increase, the engine returns exactly one attribution,
namely the first increased record in iteration order over the tracked
records, and the ambiguity diagnostic enumerates every ambiguous candidate
together with its delta. -/
theorem C1_ambiguous_pass_first_in_order (ci m : UsesMap)
    (tracked : List UserInvite)
    (h : 2 ≤ (tracked.filterMap (increasedCandidate ci m)).length) :
    (_findUsedInviteAndStale (some ci) (some m) tracked).attribution
        = (tracked.filterMap (increasedCandidate ci m)).head?
    ∧ ((_findUsedInviteAndStale (some ci) (some m) tracked).attribution).isSome = true
    ∧ (_findUsedInviteAndStale (some ci) (some m) tracked).ambiguousCandidates
        = tracked.filterMap (increasedCandidate ci m) := by
  have hchar := (findLoop_characterisation ci m tracked m (fun _ _ => rfl)).2
  have h1 : ¬ (tracked.filterMap (increasedCandidate ci m)).length = 1 := by omega
  have h2 : (tracked.filterMap (increasedCandidate ci m)).length > 1 := by omega
  refine ⟨?_, ?_, ?_⟩
  · show attributionOf (findLoop ci tracked m).2.1 = _
    rw [hchar]
    simp [attributionOf, h1, h2]
  · show (attributionOf (findLoop ci tracked m).2.1).isSome = true
    rw [hchar]
    simp only [attributionOf, if_neg h1, if_pos h2]
    rw [List.head?_isSome]
    intro hnil
    rw [hnil] at h
    simp at h
  · show (if (findLoop ci tracked m).2.1.length > 1 then (findLoop ci tracked m).2.1 else []) = _
    rw [hchar, if_pos h2]

theorem C1_ambiguous_pass_first_in_order_witness :
    2 ≤ (([{ docId := "idA", userId := "ownerA", guildId := "g1", inviteCode := "A" },
           { docId := "idB", userId := "ownerB", guildId := "g1", inviteCode := "B" }] :
            List UserInvite).filterMap
          (increasedCandidate [("A", 6), ("B", 4)] [("A", 5), ("B", 3)])).length
    ∧ ((_findUsedInviteAndStale (some [("A", 6), ("B", 4)]) (some [("A", 5), ("B", 3)])
          [{ docId := "idA", userId := "ownerA", guildId := "g1", inviteCode := "A" },
           { docId := "idB", userId := "ownerB", guildId := "g1", inviteCode := "B" }]).attribution
          = (([{ docId := "idA", userId := "ownerA", guildId := "g1", inviteCode := "A" },
               { docId := "idB", userId := "ownerB", guildId := "g1", inviteCode := "B" }] :
                List UserInvite).filterMap
              (increasedCandidate [("A", 6), ("B", 4)] [("A", 5), ("B", 3)])).head?
       ∧ ((_findUsedInviteAndStale (some [("A", 6), ("B", 4)]) (some [("A", 5), ("B", 3)])
            [{ docId := "idA", userId := "ownerA", guildId := "g1", inviteCode := "A" },
             { docId := "idB", userId := "ownerB", guildId := "g1", inviteCode := "B" }]).attribution).isSome = true
       ∧ (_findUsedInviteAndStale (some [("A", 6), ("B", 4)]) (some [("A", 5), ("B", 3)])
            [{ docId := "idA", userId := "ownerA", guildId := "g1", inviteCode := "A" },
             { docId := "idB", userId := "ownerB", guildId := "g1", inviteCode := "B" }]).ambiguousCandidates
          = ([{ docId := "idA", userId := "ownerA", guildId := "g1", inviteCode := "A" },
              { docId := "idB", userId := "ownerB", guildId := "g1", inviteCode := "B" }] :
               List UserInvite).filterMap
              (increasedCandidate [("A", 6), ("B", 4)] [("A", 5), ("B", 3)])) :=
  ⟨by decide, C1_ambiguous_pass_first_in_order _ _ _ (by decide)⟩

/-- C2: a tracked record whose code is live is classified as a candidate
exactly when `currentUses > cachedUses`, or — the weaker fallback — when the
cache has no entry for the code and `currentUses > 0`; the reported delta
equals `currentUses - cachedUses` (with a missing cache entry counting 0).
In particular, with cached `A→5, B→3`, live `A→5, B→4` and record `B`
tracked, the pass attributes to `B` with delta 1 and to no other record. -/
theorem C2_candidate_classification :
    (∀ (uv : UserInvite) (ci m : UsesMap) (u : Nat),
        mapGet ci uv.inviteCode = some u →
        (((_checkSingleInvite uv (some ci) (some m)).1.usageIncreased = true ↔
            (∃ c, mapGet m uv.inviteCode = some c ∧ u > c)
            ∨ (mapGet m uv.inviteCode = none ∧ u > 0))
         ∧ (_checkSingleInvite uv (some ci) (some m)).1.delta
             = u - (mapGet m uv.inviteCode).getD 0))
    ∧ (_findUsedInviteAndStale (some [("A", 5), ("B", 4)]) (some [("A", 5), ("B", 3)])
          [{ docId := "idB", userId := "ownerB", guildId := "g1", inviteCode := "B" }]).attribution
        = some { inviterId := "ownerB", inviteCode := "B", delta := 1 }
    ∧ (_findUsedInviteAndStale (some [("A", 5), ("B", 4)]) (some [("A", 5), ("B", 3)])
          [{ docId := "idB", userId := "ownerB", guildId := "g1", inviteCode := "B" }]).staleInviteIds = []
    ∧ (_findUsedInviteAndStale (some [("A", 5), ("B", 4)]) (some [("A", 5), ("B", 3)])
          [{ docId := "idB", userId := "ownerB", guildId := "g1", inviteCode := "B" }]).ambiguousCandidates = [] := by
  refine ⟨?_, by decide, by decide, by decide⟩
  intro uv ci m u h1
  cases h2 : mapGet m uv.inviteCode with
  | some c =>
      rw [checkSingleInvite_cached uv ci m u c h1 h2]
      by_cases huc : u > c
      · rw [if_pos huc]
        exact ⟨⟨fun _ => Or.inl ⟨c, rfl, huc⟩, fun _ => rfl⟩, rfl⟩
      · rw [if_neg huc]
        refine ⟨⟨fun hf => Bool.noConfusion hf, ?_⟩, ?_⟩
        · rintro (⟨c2, hc2, hu2⟩ | ⟨hc2, _⟩)
          · injection hc2 with he
            rw [← he] at hu2
            exact absurd hu2 huc
          · exact Option.noConfusion hc2
        · show (0 : Nat) = u - c
          omega
  | none =>
      rw [checkSingleInvite_fallback uv ci m u h1 h2]
      by_cases huc : u > 0
      · rw [if_pos huc]
        refine ⟨⟨fun _ => Or.inr ⟨rfl, huc⟩, fun _ => rfl⟩, ?_⟩
        show u = u - 0
        omega
      · rw [if_neg huc]
        refine ⟨⟨fun hf => Bool.noConfusion hf, ?_⟩, ?_⟩
        · rintro (⟨c2, hc2, _⟩ | ⟨_, hu2⟩)
          · exact Option.noConfusion hc2
          · exact absurd hu2 huc
        · show (0 : Nat) = u - 0
          omega

theorem C2_candidate_classification_witness :
    mapGet [("A", 5), ("B", 4)]
        ({ docId := "idB", userId := "ownerB", guildId := "g1", inviteCode := "B" } : UserInvite).inviteCode
      = some 4
    ∧ (((_checkSingleInvite { docId := "idB", userId := "ownerB", guildId := "g1", inviteCode := "B" }
            (some [("A", 5), ("B", 4)]) (some [("A", 5), ("B", 3)])).1.usageIncreased = true ↔
          (∃ c, mapGet [("A", 5), ("B", 3)]
              ({ docId := "idB", userId := "ownerB", guildId := "g1", inviteCode := "B" } : UserInvite).inviteCode
            = some c ∧ 4 > c)
          ∨ (mapGet [("A", 5), ("B", 3)]
              ({ docId := "idB", userId := "ownerB", guildId := "g1", inviteCode := "B" } : UserInvite).inviteCode
            = none ∧ 4 > 0))
       ∧ (_checkSingleInvite { docId := "idB", userId := "ownerB", guildId := "g1", inviteCode := "B" }
            (some [("A", 5), ("B", 4)]) (some [("A", 5), ("B", 3)])).1.delta
           = 4 - (mapGet [("A", 5), ("B", 3)]
              ({ docId := "idB", userId := "ownerB", guildId := "g1", inviteCode := "B" } : UserInvite).inviteCode).getD 0) :=
  ⟨by decide, C2_candidate_classification.1 _ _ _ 4 (by decide)⟩

/-- C3: with a null live-invite list or a null cache, the engine performs no
comparison: it returns a null attribution and an empty stale-ID list, for
every set of tracked invite records. -/
theorem C3_null_inputs_empty_result :
    (∀ (cachedUses : Option UsesMap) (tracked : List UserInvite),
        (_findUsedInviteAndStale none cachedUses tracked).attribution = none
        ∧ (_findUsedInviteAndStale none cachedUses tracked).staleInviteIds = [])
    ∧ (∀ (ci : UsesMap) (tracked : List UserInvite),
        (_findUsedInviteAndStale (some ci) none tracked).attribution = none
        ∧ (_findUsedInviteAndStale (some ci) none tracked).staleInviteIds = []) :=
  ⟨fun _ _ => ⟨rfl, rfl⟩, fun _ _ => ⟨rfl, rfl⟩⟩

/-- C9: every tracked record whose code is absent from the live invite list
is reported in the stale-ID list and its code is removed from the cache
mapping, with no assumption on the attribution outcome. -/
theorem C9_stale_reported_and_cache_cleaned (ci m : UsesMap)
    (tracked : List UserInvite) (uv : UserInvite)
    (h1 : uv ∈ tracked) (h2 : mapGet ci uv.inviteCode = none) :
    uv.docId ∈ (_findUsedInviteAndStale (some ci) (some m) tracked).staleInviteIds
    ∧ ∃ m2, (_findUsedInviteAndStale (some ci) (some m) tracked).cachedUsesAfter = some m2
        ∧ mapGet m2 uv.inviteCode = none := by
  constructor
  · show uv.docId ∈ (findLoop ci tracked m).1
    rw [(findLoop_characterisation ci m tracked m (fun _ _ => rfl)).1]
    exact List.mem_map_of_mem _ (List.mem_filter.mpr ⟨h1, by simp [h2]⟩)
  · refine ⟨(findLoop ci tracked m).2.2, rfl, ?_⟩
    exact findLoop_cache_none ci uv.inviteCode tracked m (Or.inl ⟨⟨uv, h1, rfl⟩, h2⟩)

theorem C9_stale_reported_and_cache_cleaned_witness :
    ({ docId := "idC", userId := "ownerC", guildId := "g1", inviteCode := "C" } : UserInvite)
        ∈ [({ docId := "idC", userId := "ownerC", guildId := "g1", inviteCode := "C" } : UserInvite)]
    ∧ mapGet [("A", 5)]
        ({ docId := "idC", userId := "ownerC", guildId := "g1", inviteCode := "C" } : UserInvite).inviteCode = none
    ∧ (({ docId := "idC", userId := "ownerC", guildId := "g1", inviteCode := "C" } : UserInvite).docId
          ∈ (_findUsedInviteAndStale (some [("A", 5)]) (some [("C", 7)])
              [{ docId := "idC", userId := "ownerC", guildId := "g1", inviteCode := "C" }]).staleInviteIds
       ∧ ∃ m2, (_findUsedInviteAndStale (some [("A", 5)]) (some [("C", 7)])
              [{ docId := "idC", userId := "ownerC", guildId := "g1", inviteCode := "C" }]).cachedUsesAfter = some m2
            ∧ mapGet m2 ({ docId := "idC", userId := "ownerC", guildId := "g1", inviteCode := "C" } : UserInvite).inviteCode = none) :=
  ⟨by decide, by decide,
   C9_stale_reported_and_cache_cleaned _ _ _ _ (by decide) (by decide)⟩

/-- C10: stale-invite cleanup deletes only records whose `_id` is queued AND
whose `guildId` matches the community of the pass; the sub-collection of
every other community is left exactly unchanged, even if a queued ID belongs
to a record of another community. -/
theorem C10_cleanup_scoped_to_community :
    ∀ (staleInviteIds : List String) (guildId : String) (db : List UserInvite),
      (_cleanupStaleInvites staleInviteIds guildId db).filter
          (fun r => r.guildId != guildId)
        = db.filter (fun r => r.guildId != guildId) := by
  intro ids g db
  unfold _cleanupStaleInvites
  rw [List.filter_filter]
  apply List.filter_congr
  intro r _
  by_cases h : r.guildId = g <;> simp [h]

/-! ## Lemmas about `updateFirst` and the join-record lifecycle -/

theorem updateFirst_filter (p : TrackedJoin → Bool) (f : TrackedJoin → TrackedJoin)
    (hpf : ∀ r, p r = true → p (f r) = true) :
    ∀ (db : List TrackedJoin) (r : TrackedJoin) (rest : List TrackedJoin),
      db.filter p = r :: rest →
      (updateFirst p f db).filter p = f r :: rest := by
  intro db
  induction db with
  | nil => intro r rest h; exact absurd h (by simp)
  | cons x xs ih =>
      intro r rest h
      by_cases hx : p x = true
      · rw [List.filter_cons_of_pos hx] at h
        injection h with h1 h2
        show (if p x then f x :: xs else x :: updateFirst p f xs).filter p = f r :: rest
        rw [if_pos hx, List.filter_cons_of_pos (hpf x hx), h1, h2]
      · rw [List.filter_cons_of_neg hx] at h
        show (if p x then f x :: xs else x :: updateFirst p f xs).filter p = f r :: rest
        rw [if_neg hx, List.filter_cons_of_neg hx]
        exact ih r rest h

theorem recordJoin_filter_nil (g u inv c : String) (t : Int) (nid : Nat)
    (db : List TrackedJoin) (h : db.filter (joinKey g u) = []) :
    (_createOrUpdatePendingJoin g u inv c t nid db).filter (joinKey g u)
      = [{ docId := nid, guildId := g, inviteeId := u, inviterId := inv,
           inviteCodeUsed := c, joinTimestamp := t, status := .pending,
           validationTimestamp := none, leaveTimestamp := none }] := by
  have hany : db.any (joinKey g u) = false := by
    rw [List.any_eq_false]
    intro x hx
    exact (List.filter_eq_nil_iff.mp h) x hx
  unfold _createOrUpdatePendingJoin
  rw [if_neg (by rw [hany]; exact Bool.false_ne_true)]
  rw [List.filter_append, h, List.nil_append]
  rw [List.filter_cons_of_pos (by simp [joinKey])]
  rfl

theorem recordJoin_filter_cons (g u inv c : String) (t : Int) (nid : Nat)
    (db : List TrackedJoin) (r : TrackedJoin) (rest : List TrackedJoin)
    (h : db.filter (joinKey g u) = r :: rest) :
    (_createOrUpdatePendingJoin g u inv c t nid db).filter (joinKey g u)
      = pendingSet inv c t r :: rest := by
  have hr : r ∈ db.filter (joinKey g u) := by
    rw [h]; exact List.mem_cons_self r rest
  have hany : db.any (joinKey g u) = true := by
    rw [List.any_eq_true]
    exact ⟨r, (List.mem_filter.mp hr).1, (List.mem_filter.mp hr).2⟩
  unfold _createOrUpdatePendingJoin
  rw [if_pos hany]
  exact updateFirst_filter (joinKey g u) (pendingSet inv c t)
    (fun r2 hr2 => hr2) db r rest h

/-! ## Claim theorems: join-record lifecycle -/

/-- C4: the claim says `recordJoin` clears any prior validation/leave
timestamps and that two calls for the same (community, invitee) with
different inviters leave exactly one document with the timestamps reset.
The source does write `validationTimestamp: undefined, leaveTimestamp:
undefined` into the `$set` — commented "Clear validation/leave timestamps
if rejoining/re-attributed" — but Mongoose 6+ strips `undefined` update
keys, so the store never sees them and prior timestamps survive: the code
contradicts its own comment (and the spec).  Starting from a collection
holding one `validated` document for the pair with `validationTimestamp`
set (a validated member who then left and rejoins), two `recordJoin` calls
yield exactly one document reflecting the second inviter and code, status
`pending`, fresh `joinTimestamp` — and the stale `validationTimestamp`
still present instead of reset. -/
theorem C4_rejoin_retains_prior_timestamps :
    _createOrUpdatePendingJoin "g" "u" "inv2" "c2" 9 2
      (_createOrUpdatePendingJoin "g" "u" "inv1" "c1" 5 1
        [{ docId := 0, guildId := "g", inviteeId := "u", inviterId := "a",
           inviteCodeUsed := "c", joinTimestamp := 0, status := .validated,
           validationTimestamp := some 1, leaveTimestamp := none }])
      = [{ docId := 0, guildId := "g", inviteeId := "u", inviterId := "inv2",
           inviteCodeUsed := "c2", joinTimestamp := 9, status := .pending,
           validationTimestamp := some 1, leaveTimestamp := none }] := by decide

/-! ## C5: terminal-status machinery -/

theorem joinEvolution_refl (r : TrackedJoin) : joinEvolution r r :=
  ⟨fun _ => rfl, rfl, rfl⟩

theorem joinEvolution_trans {a b c : TrackedJoin}
    (h1 : joinEvolution a b) (h2 : joinEvolution b c) : joinEvolution a c := by
  refine ⟨?_, h2.2.1.trans h1.2.1, h2.2.2.trans h1.2.2⟩
  intro ha
  have hb := h1.1 ha
  have hc := h2.1 (by rw [hb]; exact ha)
  rw [hc, hb]

theorem forall₂_joinEvolution_refl (db : List TrackedJoin) :
    List.Forall₂ joinEvolution db db :=
  List.forall₂_same.mpr (fun r _ => joinEvolution_refl r)

theorem forall₂_joinEvolution_comp :
    ∀ {l1 l2 l3 : List TrackedJoin}, List.Forall₂ joinEvolution l1 l2 →
      List.Forall₂ joinEvolution l2 l3 → List.Forall₂ joinEvolution l1 l3 := by
  intro l1 l2 l3 h1
  induction h1 generalizing l3 with
  | nil => intro h2; cases h2; exact List.Forall₂.nil
  | cons hab h1' ih =>
      intro h2
      cases h2 with
      | cons hbc h2' => exact List.Forall₂.cons (joinEvolution_trans hab hbc) (ih h2')

theorem applyOutcome_fields (op : UpdateOp) (r : TrackedJoin) :
    (applyOutcome op r).docId = r.docId
    ∧ (applyOutcome op r).guildId = r.guildId
    ∧ (applyOutcome op r).inviteeId = r.inviteeId
    ∧ (applyOutcome op r).joinTimestamp = r.joinTimestamp
    ∧ (applyOutcome op r).inviterId = r.inviterId
    ∧ (applyOutcome op r).inviteCodeUsed = r.inviteCodeUsed := by
  cases hoc : op.outcome <;> simp [applyOutcome, hoc]

theorem applyOutcome_status_ne_pending (op : UpdateOp) (r : TrackedJoin) :
    (applyOutcome op r).status ≠ JoinStatus.pending := by
  cases hoc : op.outcome <;> simp [applyOutcome, hoc]

theorem opFilter_status (op : UpdateOp) (r : TrackedJoin)
    (h : opFilter op r = true) : r.status = JoinStatus.pending := by
  simp only [opFilter, Bool.and_eq_true, beq_iff_eq] at h
  exact h.2

theorem forall₂_joinEvolution_applyUpdateOp (op : UpdateOp) (db : List TrackedJoin) :
    List.Forall₂ joinEvolution db (applyUpdateOp op db) := by
  induction db with
  | nil => exact List.Forall₂.nil
  | cons x xs ih =>
      show List.Forall₂ joinEvolution (x :: xs)
        (if opFilter op x then applyOutcome op x :: xs else x :: updateFirst (opFilter op) (applyOutcome op) xs)
      by_cases hx : opFilter op x = true
      · rw [if_pos hx]
        refine List.Forall₂.cons ?_ (forall₂_joinEvolution_refl xs)
        exact ⟨fun hne => absurd (opFilter_status op x hx) hne,
               (applyOutcome_fields op x).2.2.2.2.1,
               (applyOutcome_fields op x).2.2.2.2.2⟩
      · rw [if_neg hx]
        exact List.Forall₂.cons (joinEvolution_refl x) ih

theorem forall₂_joinEvolution_applyBulkWrite :
    ∀ (ops : List UpdateOp) (db : List TrackedJoin),
      List.Forall₂ joinEvolution db (applyBulkWrite ops db)
  | [], db => forall₂_joinEvolution_refl db
  | op :: rest, db =>
      forall₂_joinEvolution_comp (forall₂_joinEvolution_applyUpdateOp op db)
        (forall₂_joinEvolution_applyBulkWrite rest (applyUpdateOp op db))

/-- C5 counterexample: the claim says that under every operation of the
system — join recording included — a record whose status is `validated`
never changes status again.  But `_createOrUpdatePendingJoin` (join
recording) keys only on (guildId, inviteeId) with no status filter and
force-sets `status = 'pending'`: rerunning it for a member whose record is
`validated` flips the same document (same `_id`) back to `pending` and
overwrites its inviter. -/
theorem C5_counterexample_rejoin_resets_terminal_status :
    (([{ docId := 0, guildId := "g", inviteeId := "u", inviterId := "a",
         inviteCodeUsed := "c", joinTimestamp := 0, status := .validated,
         validationTimestamp := some 1, leaveTimestamp := none }] :
        List TrackedJoin).head?.map TrackedJoin.status = some JoinStatus.validated)
    ∧ (_createOrUpdatePendingJoin "g" "u" "b" "d" 5 1
        [{ docId := 0, guildId := "g", inviteeId := "u", inviterId := "a",
           inviteCodeUsed := "c", joinTimestamp := 0, status := .validated,
           validationTimestamp := some 1, leaveTimestamp := none }]).head?.map TrackedJoin.status
      = some JoinStatus.pending
    ∧ (_createOrUpdatePendingJoin "g" "u" "b" "d" 5 1
        [{ docId := 0, guildId := "g", inviteeId := "u", inviterId := "a",
           inviteCodeUsed := "c", joinTimestamp := 0, status := .validated,
           validationTimestamp := some 1, leaveTimestamp := none }]).head?.map TrackedJoin.docId
      = some 0
    ∧ (_createOrUpdatePendingJoin "g" "u" "b" "d" 5 1
        [{ docId := 0, guildId := "g", inviteeId := "u", inviterId := "a",
           inviteCodeUsed := "c", joinTimestamp := 0, status := .validated,
           validationTimestamp := some 1, leaveTimestamp := none }]).head?.map TrackedJoin.inviterId
      = some "b" := by decide

/-- C5 (amended): restricted to leave handling and periodic validation,
status transitions are one-way and terminal — a record whose status is
`validated` or `left_early` is never changed by either operation — and
neither operation (validation in particular) alters any record's
`inviterId` or `inviteCodeUsed`.  Join recording is excluded: on a rejoin
it re-opens the member's record, resetting it to `pending` and overwriting
the inviter, as documented for `recordJoin`. -/
theorem C5_amended_terminal_under_leave_and_validation :
    ∀ (db : List TrackedJoin) (g u : String) (tl : Int) (kg : List String)
      (f : String → String → FetchOutcome) (cutoff tv : Int),
      List.Forall₂ joinEvolution db (_markJoinsAsLeftEarly g u tl db)
      ∧ List.Forall₂ joinEvolution db (validatePendingJoins kg f cutoff tv db) := by
  intro db g u tl kg f cutoff tv
  constructor
  · induction db with
    | nil => exact List.Forall₂.nil
    | cons x xs ih =>
        refine List.Forall₂.cons ?_ ih
        by_cases hx : (x.guildId == g && x.inviteeId == u
            && x.status == JoinStatus.pending) = true
        · show joinEvolution x (if _ then _ else x)
          rw [if_pos hx]
          have hpend : x.status = JoinStatus.pending := by
            simp only [Bool.and_eq_true, beq_iff_eq] at hx
            exact hx.2
          exact ⟨fun hne => absurd hpend hne, rfl, rfl⟩
        · show joinEvolution x (if _ then _ else x)
          rw [if_neg hx]
          exact joinEvolution_refl x
  · exact forall₂_joinEvolution_applyBulkWrite _ db

/-- C8: the validation task's candidate query uses an inclusive cutoff
(`joinTimestamp <= now - validationPeriod`): a pending record whose
timestamp equals the cutoff exactly is selected, while one a millisecond
later is not. -/
theorem C8_candidate_cutoff_inclusive (db : List TrackedJoin) (r : TrackedJoin)
    (nowMs period : Int) (hmem : r ∈ db) (hp : r.status = JoinStatus.pending) :
    (r.joinTimestamp = nowMs - period →
        r ∈ validationCandidates db (nowMs - period))
    ∧ (r.joinTimestamp = nowMs - period + 1 →
        r ∉ validationCandidates db (nowMs - period)) := by
  constructor
  · intro ht
    refine List.mem_filter.mpr ⟨hmem, ?_⟩
    simp [hp, ht]
  · intro ht hin
    have h2 := (List.mem_filter.mp hin).2
    simp only [hp, ht, Bool.and_eq_true, beq_iff_eq, decide_eq_true_eq] at h2
    omega

theorem C8_candidate_cutoff_inclusive_witness :
    (({ docId := 0, guildId := "g", inviteeId := "u", inviterId := "a",
        inviteCodeUsed := "c", joinTimestamp := 6, status := .pending,
        validationTimestamp := none, leaveTimestamp := none } : TrackedJoin)
      ∈ ([{ docId := 0, guildId := "g", inviteeId := "u", inviterId := "a",
            inviteCodeUsed := "c", joinTimestamp := 6, status := .pending,
            validationTimestamp := none, leaveTimestamp := none }] : List TrackedJoin))
    ∧ ({ docId := 0, guildId := "g", inviteeId := "u", inviterId := "a",
         inviteCodeUsed := "c", joinTimestamp := 6, status := .pending,
         validationTimestamp := none, leaveTimestamp := none } : TrackedJoin).status
        = JoinStatus.pending
    ∧ ({ docId := 0, guildId := "g", inviteeId := "u", inviterId := "a",
         inviteCodeUsed := "c", joinTimestamp := 6, status := .pending,
         validationTimestamp := none, leaveTimestamp := none } : TrackedJoin).joinTimestamp
        = 10 - 4
    ∧ ({ docId := 0, guildId := "g", inviteeId := "u", inviterId := "a",
         inviteCodeUsed := "c", joinTimestamp := 6, status := .pending,
         validationTimestamp := none, leaveTimestamp := none } : TrackedJoin)
      ∈ validationCandidates
          [{ docId := 0, guildId := "g", inviteeId := "u", inviterId := "a",
             inviteCodeUsed := "c", joinTimestamp := 6, status := .pending,
             validationTimestamp := none, leaveTimestamp := none }] (10 - 4) :=
  ⟨by decide, by decide, by decide,
   (C8_candidate_cutoff_inclusive _ _ 10 4 (by decide) (by decide)).1 (by decide)⟩

/-! ## Normal form of one validation tick

With pairwise-distinct `_id`s (a Mongo collection invariant) the bulk write
of one tick acts on the collection as a pointwise map: each document's image
is `validationImage`.  This is the key lemma behind C6 and C7. -/

theorem updateFirst_map_docId (p : TrackedJoin → Bool)
    (f : TrackedJoin → TrackedJoin) (hg : ∀ r, (f r).docId = r.docId) :
    ∀ db : List TrackedJoin,
      (updateFirst p f db).map (fun r => r.docId) = db.map (fun r => r.docId) := by
  intro db
  induction db with
  | nil => rfl
  | cons x xs ih =>
      show (if p x then f x :: xs else x :: updateFirst p f xs).map (fun r => r.docId) = _
      by_cases hx : p x = true
      · rw [if_pos hx]
        simp [hg]
      · rw [if_neg hx]
        simp only [List.map_cons, ih]

theorem prepare_targetId (j : TrackedJoin) (s : PresenceStatus) (t : Int)
    (op : UpdateOp) (h : _prepareValidationUpdate j s t = some op) :
    op.targetId = j.docId := by
  cases s with
  | present =>
      simp only [_prepareValidationUpdate] at h
      injection h with h2
      rw [← h2]
  | left =>
      simp only [_prepareValidationUpdate] at h
      injection h with h2
      rw [← h2]
  | error_skip => exact Option.noConfusion h

theorem prepare_none_iff (j : TrackedJoin) (s : PresenceStatus) (t : Int) :
    _prepareValidationUpdate j s t = none ↔ s = PresenceStatus.error_skip := by
  cases s <;> simp [_prepareValidationUpdate]

/-- `updateOne` with an `_id` filter, under distinct `_id`s: the whole
collection maps pointwise, the unique pending document with the targeted id
getting the `$set`. -/
theorem applyUpdateOp_eq_map (op : UpdateOp) (c : TrackedJoin) :
    ∀ db : List TrackedJoin, (db.map (fun r => r.docId)).Nodup → c ∈ db →
      c.status = JoinStatus.pending → op.targetId = c.docId →
      applyUpdateOp op db
        = db.map (fun r => if r.docId = c.docId then applyOutcome op r else r) := by
  intro db
  induction db with
  | nil => intro _ hc; exact absurd hc (by simp)
  | cons x xs ih =>
      intro hnd hc hp ht
      rw [List.map_cons, List.nodup_cons] at hnd
      rcases List.mem_cons.mp hc with he | hxs
      · have hfx : opFilter op x = true := by
          simp only [opFilter, Bool.and_eq_true, beq_iff_eq]
          exact ⟨by rw [ht, ← he], by rw [← he]; exact hp⟩
        show (if opFilter op x then applyOutcome op x :: xs
              else x :: updateFirst (opFilter op) (applyOutcome op) xs) = _
        rw [if_pos hfx, List.map_cons, if_pos (by rw [← he])]
        congr 1
        have hxsid : ∀ r ∈ xs, (if r.docId = c.docId then applyOutcome op r else r) = r := by
          intro r hr
          rw [if_neg]
          intro heq
          apply hnd.1
          rw [← he, ← heq]
          exact List.mem_map_of_mem _ hr
        rw [List.map_congr_left hxsid, List.map_id']
      · have hne : x.docId ≠ c.docId := by
          intro heq
          apply hnd.1
          rw [heq]
          exact List.mem_map_of_mem _ hxs
        have hfx : opFilter op x ≠ true := by
          intro hcon
          simp only [opFilter, Bool.and_eq_true, beq_iff_eq] at hcon
          exact hne (ht ▸ hcon.1)
        show (if opFilter op x then applyOutcome op x :: xs
              else x :: updateFirst (opFilter op) (applyOutcome op) xs) = _
        rw [if_neg hfx, List.map_cons, if_neg hne]
        congr 1
        exact ih hnd.2 hxs hp ht

/-- The bulk write produced from a candidate sub-list with distinct ids acts
as a pointwise map over the collection. -/
theorem applyBulkWrite_candidates_eq_map (kg : List String)
    (f : String → String → FetchOutcome) (t : Int) :
    ∀ (cands db : List TrackedJoin),
      (db.map (fun r => r.docId)).Nodup →
      (cands.map (fun r => r.docId)).Nodup →
      (∀ c ∈ cands, c ∈ db ∧ c.status = JoinStatus.pending) →
      applyBulkWrite
          (cands.filterMap (fun j =>
            _prepareValidationUpdate j (_checkMemberPresence kg f j) t)) db
        = db.map (fun r =>
            if r ∈ cands then
              match _prepareValidationUpdate r (_checkMemberPresence kg f r) t with
              | some op => applyOutcome op r
              | none => r
            else r) := by
  intro cands
  induction cands with
  | nil =>
      intro db _ _ _
      show db = _
      rw [List.map_congr_left (fun r _ => by rw [if_neg (by simp)]), List.map_id']
  | cons c rest ih =>
      intro db hnd hndc hsub
      rw [List.map_cons, List.nodup_cons] at hndc
      obtain ⟨hcdb, hcp⟩ := hsub c (List.mem_cons_self _ _)
      cases hop : _prepareValidationUpdate c (_checkMemberPresence kg f c) t with
      | none =>
          rw [@List.filterMap_cons_none _ _
            (fun j => _prepareValidationUpdate j (_checkMemberPresence kg f j) t)
            c rest hop]
          rw [ih db hnd hndc.2 (fun c2 h2 => hsub c2 (List.mem_cons_of_mem _ h2))]
          apply List.map_congr_left
          intro r hr
          by_cases hrc : r = c
          · subst hrc
            by_cases hrr : r ∈ rest
            · rw [if_pos hrr, if_pos (List.mem_cons_self _ _), hop]
            · rw [if_neg hrr, if_pos (List.mem_cons_self _ _), hop]
          · by_cases hrr : r ∈ rest
            · rw [if_pos hrr, if_pos (List.mem_cons_of_mem _ hrr)]
            · rw [if_neg hrr, if_neg (fun hmm => (List.mem_cons.mp hmm).elim hrc hrr)]
      | some op =>
          have htid : op.targetId = c.docId := prepare_targetId _ _ _ _ hop
          rw [@List.filterMap_cons_some _ _
            (fun j => _prepareValidationUpdate j (_checkMemberPresence kg f j) t)
            c rest op hop]
          show applyBulkWrite
              (List.filterMap _ rest) (applyUpdateOp op db) = _
          rw [applyUpdateOp_eq_map op c db hnd hcdb hcp htid]
          have himg : ∀ r : TrackedJoin,
              ((if r.docId = c.docId then applyOutcome op r else r)).docId = r.docId := by
            intro r
            by_cases h : r.docId = c.docId
            · rw [if_pos h]; exact (applyOutcome_fields op r).1
            · rw [if_neg h]
          have hdocs :
              ((db.map (fun r => if r.docId = c.docId then applyOutcome op r else r)).map
                  (fun r => r.docId))
                = db.map (fun r => r.docId) := by
            rw [List.map_map]
            exact List.map_congr_left (fun r _ => himg r)
          have hnd2 : ((db.map (fun r => if r.docId = c.docId then applyOutcome op r else r)).map
              (fun r => r.docId)).Nodup := by
            rw [hdocs]; exact hnd
          have hsub2 : ∀ c2 ∈ rest,
              c2 ∈ db.map (fun r => if r.docId = c.docId then applyOutcome op r else r)
              ∧ c2.status = JoinStatus.pending := by
            intro c2 h2
            obtain ⟨hc2db, hc2p⟩ := hsub c2 (List.mem_cons_of_mem _ h2)
            refine ⟨?_, hc2p⟩
            have hne : c2.docId ≠ c.docId := fun heq =>
              hndc.1 (heq ▸ List.mem_map_of_mem (fun r => r.docId) h2)
            have himg2 : (if c2.docId = c.docId then applyOutcome op c2 else c2) = c2 :=
              if_neg hne
            rw [← himg2]
            exact List.mem_map_of_mem _ hc2db
          rw [ih _ hnd2 hndc.2 hsub2, List.map_map]
          apply List.map_congr_left
          intro r hr
          simp only [Function.comp_apply]
          by_cases hdc : r.docId = c.docId
          · have hrc : r = c := List.inj_on_of_nodup_map hnd hr hcdb hdc
            rw [if_pos hdc]
            have hnotin : applyOutcome op r ∉ rest := by
              intro hin
              exact applyOutcome_status_ne_pending op r
                (hsub _ (List.mem_cons_of_mem _ hin)).2
            rw [if_neg hnotin, if_pos (by rw [hrc]; exact List.mem_cons_self _ _)]
            rw [hrc, hop]
          · have hrc : r ≠ c := fun he => hdc (by rw [he])
            rw [if_neg hdc]
            by_cases hrr : r ∈ rest
            · rw [if_pos hrr, if_pos (List.mem_cons_of_mem _ hrr)]
            · rw [if_neg hrr, if_neg (fun hmm => (List.mem_cons.mp hmm).elim hrc hrr)]

/-- One validation tick is the pointwise map of `validationImage` over the
collection, given distinct `_id`s. -/
theorem validatePendingJoins_eq_map (kg : List String)
    (f : String → String → FetchOutcome) (cutoff t : Int)
    (db : List TrackedJoin) (hnd : (db.map (fun r => r.docId)).Nodup) :
    validatePendingJoins kg f cutoff t db
      = db.map (validationImage kg f cutoff t) := by
  have hcands : ((validationCandidates db cutoff).map (fun r => r.docId)).Nodup :=
    ((List.filter_sublist db).map (fun r => r.docId)).nodup hnd
  have hsub : ∀ c ∈ validationCandidates db cutoff,
      c ∈ db ∧ c.status = JoinStatus.pending := by
    intro c hcm
    obtain ⟨h1, h2⟩ := List.mem_filter.mp hcm
    simp only [Bool.and_eq_true, beq_iff_eq] at h2
    exact ⟨h1, h2.1⟩
  show applyBulkWrite
      ((validationCandidates db cutoff).filterMap (fun j =>
        _prepareValidationUpdate j (_checkMemberPresence kg f j) t)) db = _
  rw [applyBulkWrite_candidates_eq_map kg f t (validationCandidates db cutoff) db
      hnd hcands hsub]
  apply List.map_congr_left
  intro r hr
  unfold validationImage
  by_cases hpred : (r.status == JoinStatus.pending && decide (r.joinTimestamp ≤ cutoff)) = true
  · rw [if_pos (show r ∈ validationCandidates db cutoff from
          List.mem_filter.mpr ⟨hr, hpred⟩),
        if_pos hpred]
  · rw [if_neg (show r ∉ validationCandidates db cutoff from
          fun hmm => hpred (List.mem_filter.mp hmm).2),
        if_neg hpred]

theorem validationImage_docId (kg : List String)
    (f : String → String → FetchOutcome) (cutoff t : Int) (r : TrackedJoin) :
    (validationImage kg f cutoff t r).docId = r.docId := by
  unfold validationImage
  by_cases h : (r.status == JoinStatus.pending && decide (r.joinTimestamp ≤ cutoff)) = true
  · rw [if_pos h]
    cases hop : _prepareValidationUpdate r (_checkMemberPresence kg f r) t with
    | some op => exact (applyOutcome_fields op r).1
    | none => rfl
  · rw [if_neg h]

theorem checkMemberPresence_skip_of_unknown_guild (kg : List String)
    (f : String → String → FetchOutcome) (r : TrackedJoin)
    (h : kg.contains r.guildId = false) :
    _checkMemberPresence kg f r = PresenceStatus.error_skip := by
  unfold _checkMemberPresence
  rw [if_neg (by rw [h]; exact Bool.false_ne_true)]

theorem checkMemberPresence_skip_of_error (kg : List String)
    (f : String → String → FetchOutcome) (r : TrackedJoin)
    (h : f r.guildId r.inviteeId = FetchOutcome.otherError) :
    _checkMemberPresence kg f r = PresenceStatus.error_skip := by
  unfold _checkMemberPresence
  by_cases hkg : kg.contains r.guildId = true
  · rw [if_pos hkg, h]
  · rw [if_neg hkg]

theorem validationImage_left (kg : List String)
    (f : String → String → FetchOutcome) (cutoff t : Int) (r : TrackedJoin)
    (hp : r.status = JoinStatus.pending) (hts : r.joinTimestamp ≤ cutoff)
    (hkg : kg.contains r.guildId = true)
    (hf : f r.guildId r.inviteeId = FetchOutcome.unknownMemberOrUser) :
    validationImage kg f cutoff t r
      = { r with status := .left_early, leaveTimestamp := some t } := by
  unfold validationImage
  rw [if_pos (by simp [hp, hts])]
  unfold _checkMemberPresence
  rw [if_pos hkg, hf]
  rfl

theorem validationImage_skip (kg : List String)
    (f : String → String → FetchOutcome) (cutoff t : Int) (r : TrackedJoin)
    (hskip : _checkMemberPresence kg f r = PresenceStatus.error_skip) :
    validationImage kg f cutoff t r = r := by
  unfold validationImage
  by_cases h : (r.status == JoinStatus.pending && decide (r.joinTimestamp ≤ cutoff)) = true
  · rw [if_pos h, hskip]
    rfl
  · rw [if_neg h]

/-! ## Claim theorems: the validation tick -/

/-- C6: per candidate in one validation tick — presence lookup failing with
the platform's unknown-member/unknown-user error transitions the record to
`left_early` (with the tick's leave timestamp); any other lookup error
leaves the record untouched and pending; a candidate whose community is not
known to the process is likewise skipped and left pending.  Distinct `_id`s
(the collection invariant) pin "the record" down uniquely. -/
theorem C6_presence_failure_modes (kg : List String)
    (f : String → String → FetchOutcome) (cutoff t : Int)
    (db : List TrackedJoin) (r : TrackedJoin)
    (hnd : (db.map (fun r2 => r2.docId)).Nodup)
    (hr : r ∈ db) (hp : r.status = JoinStatus.pending)
    (hts : r.joinTimestamp ≤ cutoff) :
    (kg.contains r.guildId = true →
      f r.guildId r.inviteeId = FetchOutcome.unknownMemberOrUser →
      { r with status := .left_early, leaveTimestamp := some t }
          ∈ validatePendingJoins kg f cutoff t db
      ∧ ∀ r2 ∈ validatePendingJoins kg f cutoff t db, r2.docId = r.docId →
          r2 = { r with status := .left_early, leaveTimestamp := some t })
    ∧ (kg.contains r.guildId = true →
        f r.guildId r.inviteeId = FetchOutcome.otherError →
        r ∈ validatePendingJoins kg f cutoff t db
        ∧ ∀ r2 ∈ validatePendingJoins kg f cutoff t db, r2.docId = r.docId → r2 = r)
    ∧ (kg.contains r.guildId = false →
        r ∈ validatePendingJoins kg f cutoff t db
        ∧ ∀ r2 ∈ validatePendingJoins kg f cutoff t db, r2.docId = r.docId → r2 = r) := by
  rw [validatePendingJoins_eq_map kg f cutoff t db hnd]
  have huniq : ∀ expected : TrackedJoin, validationImage kg f cutoff t r = expected →
      expected ∈ db.map (validationImage kg f cutoff t)
      ∧ ∀ r2 ∈ db.map (validationImage kg f cutoff t), r2.docId = r.docId →
          r2 = expected := by
    intro expected hexp
    constructor
    · rw [← hexp]
      exact List.mem_map_of_mem _ hr
    · intro r2 hr2 hid
      obtain ⟨s, hs, hsr⟩ := List.mem_map.mp hr2
      have hsid : s.docId = r.docId := by
        rw [← hid, ← hsr, validationImage_docId]
      have hsr2 : s = r := List.inj_on_of_nodup_map hnd hs hr hsid
      rw [← hsr, hsr2, hexp]
  exact ⟨fun hkg hf => huniq _ (validationImage_left kg f cutoff t r hp hts hkg hf),
         fun hkg hf => huniq _ (validationImage_skip kg f cutoff t r
           (checkMemberPresence_skip_of_error kg f r hf)),
         fun hkg => huniq _ (validationImage_skip kg f cutoff t r
           (checkMemberPresence_skip_of_unknown_guild kg f r hkg))⟩

theorem C6_presence_failure_modes_witness :
    ((([{ docId := 0, guildId := "g", inviteeId := "u1", inviterId := "a",
          inviteCodeUsed := "c", joinTimestamp := 0, status := .pending,
          validationTimestamp := none, leaveTimestamp := none },
        { docId := 1, guildId := "g", inviteeId := "u2", inviterId := "a",
          inviteCodeUsed := "c", joinTimestamp := 0, status := .pending,
          validationTimestamp := none, leaveTimestamp := none }] :
         List TrackedJoin).map (fun r2 => r2.docId)).Nodup)
    ∧ (["g"].contains "g" = true
       ∧ (fun _ u => if u = "u1" then FetchOutcome.unknownMemberOrUser
            else FetchOutcome.otherError) "g" "u1" = FetchOutcome.unknownMemberOrUser)
    ∧ ({ docId := 0, guildId := "g", inviteeId := "u1", inviterId := "a",
         inviteCodeUsed := "c", joinTimestamp := 0, status := .left_early,
         validationTimestamp := none, leaveTimestamp := some 7 }
        ∈ validatePendingJoins ["g"]
            (fun _ u => if u = "u1" then FetchOutcome.unknownMemberOrUser
              else FetchOutcome.otherError) 10 7
            [{ docId := 0, guildId := "g", inviteeId := "u1", inviterId := "a",
               inviteCodeUsed := "c", joinTimestamp := 0, status := .pending,
               validationTimestamp := none, leaveTimestamp := none },
             { docId := 1, guildId := "g", inviteeId := "u2", inviterId := "a",
               inviteCodeUsed := "c", joinTimestamp := 0, status := .pending,
               validationTimestamp := none, leaveTimestamp := none }]) :=
  ⟨by decide, ⟨by decide, by decide⟩,
   ((C6_presence_failure_modes ["g"]
       (fun _ u => if u = "u1" then FetchOutcome.unknownMemberOrUser
         else FetchOutcome.otherError) 10 7
       [{ docId := 0, guildId := "g", inviteeId := "u1", inviterId := "a",
          inviteCodeUsed := "c", joinTimestamp := 0, status := .pending,
          validationTimestamp := none, leaveTimestamp := none },
        { docId := 1, guildId := "g", inviteeId := "u2", inviterId := "a",
          inviteCodeUsed := "c", joinTimestamp := 0, status := .pending,
          validationTimestamp := none, leaveTimestamp := none }]
       { docId := 0, guildId := "g", inviteeId := "u1", inviterId := "a",
         inviteCodeUsed := "c", joinTimestamp := 0, status := .pending,
         validationTimestamp := none, leaveTimestamp := none }
       (by decide) (by decide) (by decide) (by decide)).1
     (by decide) (by decide)).1⟩

/-- C7: the validation task is idempotent — run immediately again on the
result of a completed run, with the same cutoff and the same presence-check
outcomes, it prepares zero update operations (so the bulk write modifies
zero documents) and leaves the collection unchanged: the candidate query
only selects `pending` records, every write is guarded by a
`status = pending` filter, and every transition ends terminal. -/
theorem C7_validation_tick_idempotent (kg : List String)
    (f : String → String → FetchOutcome) (cutoff t t2 : Int)
    (db : List TrackedJoin)
    (hnd : (db.map (fun r => r.docId)).Nodup) :
    validatePendingJoinsOps kg f cutoff t2 (validatePendingJoins kg f cutoff t db) = []
    ∧ validatePendingJoins kg f cutoff t2 (validatePendingJoins kg f cutoff t db)
        = validatePendingJoins kg f cutoff t db := by
  have hops : validatePendingJoinsOps kg f cutoff t2
      (validatePendingJoins kg f cutoff t db) = [] := by
    unfold validatePendingJoinsOps
    rw [List.filterMap_eq_nil_iff]
    intro r1 hr1
    obtain ⟨hr1mem, hr1pred⟩ := List.mem_filter.mp hr1
    rw [validatePendingJoins_eq_map kg f cutoff t db hnd] at hr1mem
    obtain ⟨s, hs, hsr⟩ := List.mem_map.mp hr1mem
    simp only [Bool.and_eq_true, beq_iff_eq, decide_eq_true_eq] at hr1pred
    by_cases hcond : (s.status == JoinStatus.pending && decide (s.joinTimestamp ≤ cutoff)) = true
    · cases hop : _prepareValidationUpdate s (_checkMemberPresence kg f s) t with
      | some op =>
          exfalso
          have himg : validationImage kg f cutoff t s = applyOutcome op s := by
            unfold validationImage
            rw [if_pos hcond, hop]
          rw [himg] at hsr
          apply applyOutcome_status_ne_pending op s
          rw [hsr]
          exact hr1pred.1
      | none =>
          have himg : validationImage kg f cutoff t s = s := by
            unfold validationImage
            rw [if_pos hcond, hop]
          have hss : r1 = s := by rw [← hsr, himg]
          rw [prepare_none_iff, hss]
          exact (prepare_none_iff s (_checkMemberPresence kg f s) t).mp hop
    · have himg : validationImage kg f cutoff t s = s := by
        unfold validationImage
        rw [if_neg hcond]
      have hss : r1 = s := by rw [← hsr, himg]
      exfalso
      apply hcond
      rw [← hss]
      simp [hr1pred.1, hr1pred.2]
  refine ⟨hops, ?_⟩
  show applyBulkWrite
      (validatePendingJoinsOps kg f cutoff t2 (validatePendingJoins kg f cutoff t db)) _ = _
  rw [hops]
  rfl

theorem C7_validation_tick_idempotent_witness :
    ((([{ docId := 0, guildId := "g", inviteeId := "u1", inviterId := "a",
          inviteCodeUsed := "c", joinTimestamp := 0, status := .pending,
          validationTimestamp := none, leaveTimestamp := none },
        { docId := 1, guildId := "h", inviteeId := "u2", inviterId := "b",
          inviteCodeUsed := "d", joinTimestamp := 0, status := .pending,
          validationTimestamp := none, leaveTimestamp := none }] :
         List TrackedJoin).map (fun r => r.docId)).Nodup)
    ∧ (validatePendingJoinsOps ["g"] (fun _ _ => FetchOutcome.ok) 10 8
          (validatePendingJoins ["g"] (fun _ _ => FetchOutcome.ok) 10 7
            [{ docId := 0, guildId := "g", inviteeId := "u1", inviterId := "a",
               inviteCodeUsed := "c", joinTimestamp := 0, status := .pending,
               validationTimestamp := none, leaveTimestamp := none },
             { docId := 1, guildId := "h", inviteeId := "u2", inviterId := "b",
               inviteCodeUsed := "d", joinTimestamp := 0, status := .pending,
               validationTimestamp := none, leaveTimestamp := none }]) = []
       ∧ validatePendingJoins ["g"] (fun _ _ => FetchOutcome.ok) 10 8
          (validatePendingJoins ["g"] (fun _ _ => FetchOutcome.ok) 10 7
            [{ docId := 0, guildId := "g", inviteeId := "u1", inviterId := "a",
               inviteCodeUsed := "c", joinTimestamp := 0, status := .pending,
               validationTimestamp := none, leaveTimestamp := none },
             { docId := 1, guildId := "h", inviteeId := "u2", inviterId := "b",
               inviteCodeUsed := "d", joinTimestamp := 0, status := .pending,
               validationTimestamp := none, leaveTimestamp := none }])
         = validatePendingJoins ["g"] (fun _ _ => FetchOutcome.ok) 10 7
            [{ docId := 0, guildId := "g", inviteeId := "u1", inviterId := "a",
               inviteCodeUsed := "c", joinTimestamp := 0, status := .pending,
               validationTimestamp := none, leaveTimestamp := none },
             { docId := 1, guildId := "h", inviteeId := "u2", inviterId := "b",
               inviteCodeUsed := "d", joinTimestamp := 0, status := .pending,
               validationTimestamp := none, leaveTimestamp := none }]) :=
  ⟨by decide,
   C7_validation_tick_idempotent ["g"] (fun _ _ => FetchOutcome.ok) 10 7 8
     [{ docId := 0, guildId := "g", inviteeId := "u1", inviterId := "a",
        inviteCodeUsed := "c", joinTimestamp := 0, status := .pending,
        validationTimestamp := none, leaveTimestamp := none },
      { docId := 1, guildId := "h", inviteeId := "u2", inviterId := "b",
        inviteCodeUsed := "d", joinTimestamp := 0, status := .pending,
        validationTimestamp := none, leaveTimestamp := none }] (by decide)⟩

end InviteTracker
